import Mathlib

/-!
Verification of the parser-combinator core (macros.rs) and the in-memory
producer (producer.rs) of this repository, as a shallow embedding.

Modelling conventions:
- Byte slices are lists of naturals; a Rust subslice i[a..b] is
  (i.drop a).take (b - a).
- The tri-state result IResult<I,O> with Done / Error / Incomplete and the
  Needed hint are embedded as inductive types.  Error codes (u32) and
  Needed sizes (u32) are embedded as Nat: no size or code in any claim
  comes anywhere near 2^32, so the u32 casts in the source cannot truncate
  on the inputs of interest and are modelled as the identity.
- A parser is a function from input to result, like the functions produced
  by the declaration forms in macros.rs.
- Loops whose termination depends on the sub-parser (many0, many1, fold0,
  fold1, length_value) are embedded with an explicit fuel argument, the
  loop body being a literal transcription of one iteration of the source
  loop; fuel exhaustion (the none result) models divergence.
- Whole-program aborts (panics) are modelled by an Option-valued result
  whose none case is the panic.
-/

/-- The Needed hint: Unknown or a byte-count lower bound Size(n). -/
inductive Needed : Type
  | Unknown : Needed
  | Size (n : Nat) : Needed
deriving DecidableEq, Repr

/-- IResult<I,O>: Done(remaining, value), Error(code) or Incomplete(needed). -/
inductive IResult (I O : Type) : Type
  | Done (i : I) (o : O) : IResult I O
  | Error (code : Nat) : IResult I O
  | Incomplete (n : Needed) : IResult I O
deriving DecidableEq, Repr

/-- True exactly on Done results. -/
def IResult.isDone {I O : Type} : IResult I O → Bool
  | .Done _ _ => true
  | _ => false

/-- True exactly on Incomplete results. -/
def IResult.isIncomplete {I O : Type} : IResult I O → Bool
  | .Incomplete _ => true
  | _ => false

/-- A byte parser, the shape produced by every declaration form in macros.rs. -/
def Parser (O : Type) : Type := List Nat → IResult (List Nat) O

/-- The tag parser from macros.rs: match an expected byte sequence at the
start of the input. -/
def tag (bytes : List Nat) (i : List Nat) : IResult (List Nat) (List Nat) :=
  if bytes.length > i.length then .Incomplete (.Size bytes.length)
  else if i.take bytes.length = bytes then
    .Done (i.drop bytes.length) (i.take bytes.length)
  else .Error 0

/-- The ordered alternative from macros.rs, one list entry per branch; the
empty list is the terminal arm of the recursion, which yields Error(1). -/
def alt {O : Type} (ps : List (Parser O)) (i : List Nat) : IResult (List Nat) O :=
  match ps with
  | [] => .Error 1
  | p :: rest =>
    match p i with
    | .Done i2 o => .Done i2 o
    | _ => alt rest i

/-- A branch that always fails with error code 3, like dont_work in the
source tests (used to exercise the alternative's escaping error code). -/
def err3 : Parser Nat := fun _ => IResult.Error 3

/-- One step of the chain combinator for an optional named step
(the chaining rule for field: e ? followed by more steps): Incomplete
aborts, Error binds none and continues from the unchanged input, Done
binds some and continues from the step's remainder. -/
def chainOptStep {α β : Type} (e : Parser α)
    (rest : List Nat → Option α → IResult (List Nat) β) (i : List Nat) :
    IResult (List Nat) β :=
  match e i with
  | .Incomplete n => .Incomplete n
  | .Error _ => rest i none
  | .Done i2 o => rest i2 (some o)

/-- The ending rule of the chain combinator for an optional named step
(field: e ? followed by the assembly closure). -/
def chainOptEnd {α β : Type} (e : Parser α) (assemble : Option α → β)
    (i : List Nat) : IResult (List Nat) β :=
  match e i with
  | .Incomplete n => .Incomplete n
  | .Error _ => .Done i (assemble none)
  | .Done i2 o => .Done i2 (assemble (some o))

/-- The scan loop of take_until from macros.rs (the for idx in 0..i.len()
loop, consuming the delimiter on a match).  The inner length test in the
match branch is dead code in the source and is transcribed as written. -/
def take_untilLoop (bytes i : List Nat) (idx : Nat) : IResult (List Nat) (List Nat) :=
  if h : idx < i.length then
    if idx + bytes.length > i.length then .Incomplete (.Size (idx + bytes.length))
    else if (i.drop idx).take bytes.length = bytes then
      if idx + bytes.length > i.length then .Done [] (i.take idx)
      else .Done (i.drop (idx + bytes.length)) (i.take idx)
    else take_untilLoop bytes i (idx + 1)
  else .Error 0
termination_by i.length - idx
decreasing_by simp_wf; omega

/-- take_until from macros.rs. -/
def take_until (bytes i : List Nat) : IResult (List Nat) (List Nat) :=
  take_untilLoop bytes i 0

/-- The scan loop of take_until_and_leave (delimiter left in the remainder). -/
def take_until_and_leaveLoop (bytes i : List Nat) (idx : Nat) :
    IResult (List Nat) (List Nat) :=
  if h : idx < i.length then
    if idx + bytes.length > i.length then .Incomplete (.Size (idx + bytes.length))
    else if (i.drop idx).take bytes.length = bytes then .Done (i.drop idx) (i.take idx)
    else take_until_and_leaveLoop bytes i (idx + 1)
  else .Error 0
termination_by i.length - idx
decreasing_by simp_wf; omega

/-- take_until_and_leave from macros.rs. -/
def take_until_and_leave (bytes i : List Nat) : IResult (List Nat) (List Nat) :=
  take_until_and_leaveLoop bytes i 0

/-- The scan loop of take_until_either (any one byte of the set is the
delimiter, consumed on a match).  Both single-byte length tests are
transcribed as written; inside the loop idx + 1 > i.len() never holds. -/
def take_until_eitherLoop (bytes i : List Nat) (idx : Nat) :
    IResult (List Nat) (List Nat) :=
  if h : idx < i.length then
    if idx + 1 > i.length then .Incomplete (.Size (1 + idx))
    else if i.get ⟨idx, h⟩ ∈ bytes then
      if idx + 1 > i.length then .Done [] (i.take idx)
      else .Done (i.drop (idx + 1)) (i.take idx)
    else take_until_eitherLoop bytes i (idx + 1)
  else .Error 0
termination_by i.length - idx
decreasing_by simp_wf; omega

/-- take_until_either from macros.rs. -/
def take_until_either (bytes i : List Nat) : IResult (List Nat) (List Nat) :=
  take_until_eitherLoop bytes i 0

/-- The scan loop of take_until_either_and_leave. -/
def take_until_either_and_leaveLoop (bytes i : List Nat) (idx : Nat) :
    IResult (List Nat) (List Nat) :=
  if h : idx < i.length then
    if idx + 1 > i.length then .Incomplete (.Size (1 + idx))
    else if i.get ⟨idx, h⟩ ∈ bytes then .Done (i.drop idx) (i.take idx)
    else take_until_either_and_leaveLoop bytes i (idx + 1)
  else .Error 0
termination_by i.length - idx
decreasing_by simp_wf; omega

/-- take_until_either_and_leave from macros.rs. -/
def take_until_either_and_leave (bytes i : List Nat) : IResult (List Nat) (List Nat) :=
  take_until_either_and_leaveLoop bytes i 0

/-- The loop of many0 from macros.rs, one fuel unit per iteration; begin
and remaining are the source's mutable locals, res the accumulator. -/
def many0Loop {α : Type} (f : Parser α) (input : List Nat)
    (begin remaining : Nat) (res : List α) : Nat → Option (IResult (List Nat) (List α))
  | 0 => none
  | fuel + 1 =>
    match f (input.drop begin) with
    | .Done i o =>
      let begin2 := begin + (remaining - i.length)
      if begin2 ≥ input.length then some (.Done i (res ++ [o]))
      else many0Loop f input begin2 i.length (res ++ [o]) fuel
    | _ => some (.Done (input.drop begin) res)

/-- many0 from macros.rs (fuelled). -/
def many0 {α : Type} (f : Parser α) (input : List Nat) (fuel : Nat) :
    Option (IResult (List Nat) (List α)) :=
  many0Loop f input 0 input.length [] fuel

/-- The loop of many1 from macros.rs; identical to many0 except that a
non-Done result on the very first attempt yields Error(0). -/
def many1Loop {α : Type} (f : Parser α) (input : List Nat)
    (begin remaining : Nat) (res : List α) : Nat → Option (IResult (List Nat) (List α))
  | 0 => none
  | fuel + 1 =>
    match f (input.drop begin) with
    | .Done i o =>
      let begin2 := begin + (remaining - i.length)
      if begin2 ≥ input.length then some (.Done i (res ++ [o]))
      else many1Loop f input begin2 i.length (res ++ [o]) fuel
    | _ =>
      if begin = 0 then some (.Error 0)
      else some (.Done (input.drop begin) res)

/-- many1 from macros.rs (fuelled). -/
def many1 {α : Type} (f : Parser α) (input : List Nat) (fuel : Nat) :
    Option (IResult (List Nat) (List α)) :=
  many1Loop f input 0 input.length [] fuel

/-- The loop of fold0_impl from macros.rs: like many0 but threading an
accumulator through the assembling closure. -/
def fold0Loop {α β : Type} (assemble : β → α → β) (f : Parser α) (input : List Nat)
    (begin remaining : Nat) (res : β) : Nat → Option (IResult (List Nat) β)
  | 0 => none
  | fuel + 1 =>
    match f (input.drop begin) with
    | .Done i o =>
      let res2 := assemble res o
      let begin2 := begin + (remaining - i.length)
      if begin2 ≥ input.length then some (.Done i res2)
      else fold0Loop assemble f input begin2 i.length res2 fuel
    | _ => some (.Done (input.drop begin) res)

/-- fold0 from macros.rs (fuelled), seeded with z. -/
def fold0 {α β : Type} (assemble : β → α → β) (f : Parser α) (input : List Nat)
    (z : β) (fuel : Nat) : Option (IResult (List Nat) β) :=
  fold0Loop assemble f input 0 input.length z fuel

/-- The loop of fold1_impl from macros.rs. -/
def fold1Loop {α β : Type} (assemble : β → α → β) (f : Parser α) (input : List Nat)
    (begin remaining : Nat) (res : β) : Nat → Option (IResult (List Nat) β)
  | 0 => none
  | fuel + 1 =>
    match f (input.drop begin) with
    | .Done i o =>
      let res2 := assemble res o
      let begin2 := begin + (remaining - i.length)
      if begin2 ≥ input.length then some (.Done i res2)
      else fold1Loop assemble f input begin2 i.length res2 fuel
    | _ =>
      if begin = 0 then some (.Error 0)
      else some (.Done (input.drop begin) res)

/-- fold1 from macros.rs (fuelled), seeded with z. -/
def fold1 {α β : Type} (assemble : β → α → β) (f : Parser α) (input : List Nat)
    (z : β) (fuel : Nat) : Option (IResult (List Nat) β) :=
  fold1Loop assemble f input 0 input.length z fuel

/-- A sub-parser consuming exactly one byte of any input, failing on empty
input (used to exercise the termination precondition). -/
def oneByte : Parser Nat := fun i =>
  match i with
  | [] => IResult.Error 0
  | _ :: t => IResult.Done t 0

/-- Modelled from the spec: the big-endian u8 count parser be_u8 used by
the length_value tests is not under src/; per the spec it reads one byte
as the element count (Incomplete(Size(1)) on empty input). -/
def be_u8 : Parser Nat := fun i =>
  match i with
  | a :: rest => .Done rest a
  | [] => .Incomplete (.Size 1)

/-- Modelled from the spec: the big-endian u16 element parser be_u16 is
not under src/; per the spec it reads a fixed-width big-endian 16-bit
element (Incomplete(Size(2)) when fewer than two bytes remain). -/
def be_u16 : Parser Nat := fun i =>
  match i with
  | a :: b :: rest => .Done rest (256 * a + b)
  | _ => .Incomplete (.Size 2)

/-- The element loop of length_value (derived per-element size variant)
from macros.rs, one fuel unit per iteration; i1 is the remainder after the
count parser, nb the element count, length_token the bytes the count
parser consumed. -/
def length_valueLoop {α : Type} (g : Parser α) (i1 : List Nat) (nb : Nat)
    (length_token : Nat) (begin remaining : Nat) (res : List α) :
    Nat → Option (IResult (List Nat) (List α))
  | 0 => none
  | fuel + 1 =>
    if res.length = nb then some (.Done (i1.drop begin) res)
    else
      match g (i1.drop begin) with
      | .Done i2 o2 =>
        let parsed := remaining - i2.length
        let begin2 := begin + parsed
        if begin2 ≥ i1.length then
          some (.Incomplete (.Size (length_token + nb * parsed)))
        else length_valueLoop g i1 nb length_token begin2 i2.length (res ++ [o2]) fuel
      | .Error a => some (.Error a)
      | .Incomplete .Unknown => some (.Incomplete .Unknown)
      | .Incomplete (.Size a) => some (.Incomplete (.Size (length_token + a * nb)))

/-- length_value from macros.rs (first variant): count parser f then nb
elements via g.  The loop body runs at most nb + 1 times, so that much
fuel is supplied. -/
def length_value {α : Type} (f : Parser Nat) (g : Parser α) (input : List Nat) :
    Option (IResult (List Nat) (List α)) :=
  match f input with
  | .Error a => some (.Error a)
  | .Incomplete n => some (.Incomplete n)
  | .Done i1 nb =>
    length_valueLoop g i1 nb (input.length - i1.length) 0 i1.length [] (nb + 1)

/-- The element loop of the fixed-element-size variant of length_value;
only the two Incomplete size computations differ from length_valueLoop. -/
def length_value_fixedLoop {α : Type} (g : Parser α) (len : Nat) (i1 : List Nat)
    (nb : Nat) (length_token : Nat) (begin remaining : Nat) (res : List α) :
    Nat → Option (IResult (List Nat) (List α))
  | 0 => none
  | fuel + 1 =>
    if res.length = nb then some (.Done (i1.drop begin) res)
    else
      match g (i1.drop begin) with
      | .Done i2 o2 =>
        let parsed := remaining - i2.length
        let begin2 := begin + parsed
        if begin2 ≥ i1.length then
          some (.Incomplete (.Size (length_token + nb * len)))
        else length_value_fixedLoop g len i1 nb length_token begin2 i2.length (res ++ [o2]) fuel
      | .Error a => some (.Error a)
      | .Incomplete .Unknown => some (.Incomplete .Unknown)
      | .Incomplete (.Size _) => some (.Incomplete (.Size (length_token + len * nb)))

/-- length_value from macros.rs (second variant, caller-supplied fixed
per-element byte length). -/
def length_value_fixed {α : Type} (f : Parser Nat) (g : Parser α) (len : Nat)
    (input : List Nat) : Option (IResult (List Nat) (List α)) :=
  match f input with
  | .Error a => some (.Error a)
  | .Incomplete n => some (.Incomplete n)
  | .Done i1 nb =>
    length_value_fixedLoop g len i1 nb (input.length - i1.length) 0 i1.length [] (nb + 1)

/-- SeekFrom as in std::io: absolute, relative-to-current or
relative-to-end position. -/
inductive SeekFrom : Type
  | Start (pos : Nat) : SeekFrom
  | Current (offset : Int) : SeekFrom
  | End (offset : Int) : SeekFrom
deriving DecidableEq, Repr

/-- ProducerState<O> from producer.rs. -/
inductive ProducerState (O : Type) : Type
  | Eof (o : O) : ProducerState O
  | Continue : ProducerState O
  | Data (o : O) : ProducerState O
  | ProducerError (code : Nat) : ProducerState O
deriving DecidableEq, Repr

/-- MemProducer from producer.rs: a borrowed byte buffer, a chunk size, the
buffer length and the read cursor. -/
structure MemProducer : Type where
  buffer : List Nat
  chunk_size : Nat
  length : Nat
  index : Nat
deriving DecidableEq, Repr

/-- MemProducer::new from producer.rs. -/
def MemProducer.new (buffer : List Nat) (chunk_size : Nat) : MemProducer :=
  { buffer := buffer, chunk_size := chunk_size, length := buffer.length, index := 0 }

/-- MemProducer::produce from producer.rs; the returned producer is the
post-state of the mutable self. -/
def MemProducer.produce (p : MemProducer) :
    ProducerState (List Nat) × MemProducer :=
  if p.index + p.chunk_size < p.length then
    (.Data ((p.buffer.drop p.index).take p.chunk_size),
     { p with index := p.index + p.chunk_size })
  else if p.index < p.length then
    (.Eof ((p.buffer.drop p.index).take (p.length - p.index)),
     { p with index := p.length })
  else
    (.ProducerError 0, p)

/-- MemProducer::seek from producer.rs.  The outer Option models the panic
on SeekFrom::End (none = abort); the inner Option Nat is the function's
Rust return value.  The u64 checked_add of a cursor and a non-negative
offset is modelled as always succeeding, since its overflow would need a
cursor beyond 2^63. -/
def MemProducer.seek (p : MemProducer) (position : SeekFrom) :
    Option (Option Nat × MemProducer) :=
  match position with
  | .Start pos =>
    if pos > p.length then some (some p.length, { p with index := p.length })
    else some (some pos, { p with index := pos })
  | .Current offset =>
    let next : Option Nat :=
      if 0 ≤ offset then some (p.index + offset.toNat)
      else if offset.natAbs ≤ p.index then some (p.index - offset.natAbs)
      else none
    match next with
    | none => some (none, p)
    | some u =>
      if u > p.length then some (some p.length, { p with index := p.length })
      else some (some u, { p with index := u })
  | .End _ => none

/-- The MemProducer state invariant: the cursor stays inside the buffer
and the cached length is the buffer's length. -/
def MemProducer.Inv (p : MemProducer) : Prop :=
  p.index ≤ p.length ∧ p.length = p.buffer.length

/-- A step sub-parser that always fails with code 7. -/
def errStep : Parser Nat := fun _ => IResult.Error 7

/-- A step sub-parser that always reports Incomplete(Size(4)). -/
def incStep : Parser Nat := fun _ => IResult.Incomplete (Needed.Size 4)

/-- A sub-parser that succeeds while consuming nothing (it returns its
whole input as the remainder), violating the progress precondition. -/
def zeroConsume : Parser Nat := fun i => IResult.Done i 0

/-- A fold combine function that keeps the accumulator. -/
def keepAcc : Nat → Nat → Nat := fun a _ => a

/-- A sub-parser that succeeds consuming its whole input. -/
def consumeAll : Parser Nat := fun _ => IResult.Done [] 7

/-- Claim C5: for every tag parser with expected bytes E and input I:
shorter input gives Incomplete(Size(len E)); a matching prefix gives
Done(I[len E ..], E); a long-enough mismatching input gives Error. -/
theorem tag_spec (E I : List Nat) :
    (I.length < E.length → tag E I = IResult.Incomplete (Needed.Size E.length))
    ∧ (E.length ≤ I.length → I.take E.length = E →
        tag E I = IResult.Done (I.drop E.length) E)
    ∧ (E.length ≤ I.length → I.take E.length ≠ E →
        tag E I = IResult.Error 0) := by
  refine ⟨?_, ?_, ?_⟩
  · intro h
    unfold tag
    rw [if_pos h]
  · intro h1 h2
    unfold tag
    rw [if_neg (by omega), if_pos h2, h2]
  · intro h1 h2
    unfold tag
    rw [if_neg (by omega), if_neg h2]

/-- Witness for tag_spec at concrete inputs. -/
theorem tag_spec_w :
    tag [97, 98] [97] = IResult.Incomplete (Needed.Size 2)
    ∧ tag [97, 98] [97, 98, 99] = IResult.Done [99] [97, 98]
    ∧ tag [97, 98] [98, 98, 99] = IResult.Error 0 :=
  ⟨(tag_spec [97, 98] [97]).1 (by decide),
   (tag_spec [97, 98] [97, 98, 99]).2.1 (by decide) (by decide),
   (tag_spec [97, 98] [98, 98, 99]).2.2 (by decide) (by decide)⟩

/-- Claim C6: the alternative tries its branches strictly in order on the
same starting input; the first branch whose result is Done determines the
result; otherwise the result is Error — it is never Incomplete. -/
theorem alt_first_match {O : Type} (ps : List (Parser O)) (i : List Nat) :
    alt ps i = (match ps.find? (fun p => (p i).isDone) with
                | some p => p i
                | none => IResult.Error 1)
    ∧ (alt ps i).isIncomplete = false := by
  induction ps with
  | nil => exact ⟨rfl, rfl⟩
  | cons p rest ih =>
    cases hp : p i with
    | Done i2 o =>
      have hfind : (p :: rest).find? (fun q => (q i).isDone) = some p := by
        rw [List.find?_cons_of_pos]
        simp [hp, IResult.isDone]
      constructor
      · rw [hfind]
        show alt (p :: rest) i = p i
        unfold alt
        rw [hp]
      · show (alt (p :: rest) i).isIncomplete = false
        unfold alt
        rw [hp]
        rfl
    | Error c =>
      have hfind : (p :: rest).find? (fun q => (q i).isDone)
          = rest.find? (fun q => (q i).isDone) := by
        rw [List.find?_cons_of_neg]
        simp [hp, IResult.isDone]
      have halt : alt (p :: rest) i = alt rest i := by
        simp only [alt, hp]
      rw [halt, hfind]
      exact ih
    | Incomplete n =>
      have hfind : (p :: rest).find? (fun q => (q i).isDone)
          = rest.find? (fun q => (q i).isDone) := by
        rw [List.find?_cons_of_neg]
        simp [hp, IResult.isDone]
      have halt : alt (p :: rest) i = alt rest i := by
        simp only [alt, hp]
      rw [halt, hfind]
      exact ih

/-- Claim C3 counterexample: a single branch failing with code 3 escapes
the alternative as Error(1), not as the branch's own Error(3): the
alternative does invent a different error code. -/
theorem alt_error_code_cex :
    alt [err3] ([] : List Nat) = IResult.Error 1
    ∧ IResult.Error 1 ≠ (IResult.Error 3 : IResult (List Nat) Nat) := by
  exact ⟨rfl, by decide⟩

/-- Claim C3 as amended: when every branch returns Error or Incomplete, the
alternative escapes with the fixed code Error(1) produced by its terminal
arm, regardless of the branches' own error codes. -/
theorem alt_exhausted_error_code {O : Type} (ps : List (Parser O)) (i : List Nat)
    (h : ∀ p ∈ ps, (p i).isDone = false) :
    alt ps i = IResult.Error 1 := by
  induction ps with
  | nil => rfl
  | cons p rest ih =>
    have hp := h p (List.mem_cons_self p rest)
    cases hpi : p i with
    | Done i2 o =>
      rw [hpi] at hp
      simp [IResult.isDone] at hp
    | Error c =>
      have halt : alt (p :: rest) i = alt rest i := by
        simp only [alt, hpi]
      rw [halt]
      exact ih (fun q hq => h q (List.mem_cons_of_mem p hq))
    | Incomplete n =>
      have halt : alt (p :: rest) i = alt rest i := by
        simp only [alt, hpi]
      rw [halt]
      exact ih (fun q hq => h q (List.mem_cons_of_mem p hq))

/-- Witness for alt_exhausted_error_code at a concrete branch list. -/
theorem alt_exhausted_error_code_w :
    alt [err3] ([] : List Nat) = IResult.Error 1 :=
  alt_exhausted_error_code [err3] []
    (by
      intro p hp
      rw [List.mem_singleton] at hp
      subst hp
      rfl)

/-- Claim C1 (code evaluation): on the exact 5-byte input 02 05 06 03 04
the length-prefixed repetition built from be_u8 and be_u16 returns
Incomplete(Size(5)), not Done, in both variants — the end-of-input return
fires right after the second element, before the element count is
re-checked; on the 4-byte input it returns Incomplete(Size(5)) as the
claim states, and with trailing bytes present it returns Done([5,7],
[1286, 772]). -/
theorem length_value_exact_boundary :
    length_value be_u8 be_u16 [2, 5, 6, 3, 4] = some (IResult.Incomplete (Needed.Size 5))
    ∧ length_value_fixed be_u8 be_u16 2 [2, 5, 6, 3, 4]
      = some (IResult.Incomplete (Needed.Size 5))
    ∧ length_value be_u8 be_u16 [2, 5, 6, 3] = some (IResult.Incomplete (Needed.Size 5))
    ∧ length_value_fixed be_u8 be_u16 2 [2, 5, 6, 3]
      = some (IResult.Incomplete (Needed.Size 5))
    ∧ length_value be_u8 be_u16 [2, 5, 6, 3, 4, 5, 7]
      = some (IResult.Done [5, 7] [1286, 772]) := by
  decide

/-- Claim C7: in a chain, an optional step whose sub-parser Errors is
swallowed — the step binds none and the chain continues from the same
input position — while an Incomplete from the sub-parser aborts the whole
chain, for both the mid-chain rule and the ending rule. -/
theorem chain_optional_step {α β : Type} (e : Parser α)
    (rest : List Nat → Option α → IResult (List Nat) β)
    (assemble : Option α → β) (i : List Nat) :
    (∀ c, e i = IResult.Error c →
      chainOptStep e rest i = rest i none
      ∧ chainOptEnd e assemble i = IResult.Done i (assemble none))
    ∧ (∀ n, e i = IResult.Incomplete n →
      chainOptStep e rest i = IResult.Incomplete n
      ∧ chainOptEnd e assemble i = IResult.Incomplete n) := by
  constructor
  · intro c h
    constructor <;> simp only [chainOptStep, chainOptEnd, h]
  · intro n h
    constructor <;> simp only [chainOptStep, chainOptEnd, h]

/-- Witness for chain_optional_step at concrete steps. -/
theorem chain_optional_step_w :
    chainOptStep errStep (fun i _ => IResult.Done i (0 : Nat)) [1, 2]
      = IResult.Done [1, 2] 0
    ∧ chainOptEnd errStep (fun _ => (0 : Nat)) [1, 2]
      = IResult.Done [1, 2] 0
    ∧ chainOptStep incStep (fun i _ => IResult.Done i (0 : Nat)) [1, 2]
      = IResult.Incomplete (Needed.Size 4)
    ∧ chainOptEnd incStep (fun _ => (0 : Nat)) [1, 2]
      = IResult.Incomplete (Needed.Size 4) :=
  ⟨((chain_optional_step errStep
      (fun i _ => IResult.Done i (0 : Nat)) (fun _ => (0 : Nat)) [1, 2]).1 7 rfl).1,
   ((chain_optional_step errStep
      (fun i _ => IResult.Done i (0 : Nat)) (fun _ => (0 : Nat)) [1, 2]).1 7 rfl).2,
   ((chain_optional_step incStep
      (fun i _ => IResult.Done i (0 : Nat)) (fun _ => (0 : Nat)) [1, 2]).2
      (Needed.Size 4) rfl).1,
   ((chain_optional_step incStep
      (fun i _ => IResult.Done i (0 : Nat)) (fun _ => (0 : Nat)) [1, 2]).2
      (Needed.Size 4) rfl).2⟩

/-- Claim C4 counterexample: a relative-to-end seek on the in-memory
producer panics (modelled as none) instead of behaving as part of a total
seek operation. -/
theorem memProducer_seek_end_cex :
    MemProducer.seek (MemProducer.new [1, 2, 3] 2) (SeekFrom.End 0) = none
    ∧ (MemProducer.seek (MemProducer.new [1, 2, 3] 2) (SeekFrom.End 0)).isSome
      = false := by
  decide

/-- Claim C4 as amended: absolute and relative-to-current seeks are as the
claim states — a relative-to-current seek that would move the cursor below
zero returns an absent result and leaves the cursor unchanged; absolute
and relative-to-current positions past the end clamp to the end and return
the clamped offset — but a relative-to-end seek panics (SeekFrom::End is
unimplemented) instead of behaving accordingly. -/
theorem memProducer_seek_behavior (p : MemProducer) :
    (∀ offset : Int, offset < 0 → p.index < offset.natAbs →
      p.seek (.Current offset) = some (none, p))
    ∧ (∀ pos : Nat, pos > p.length →
      p.seek (.Start pos) = some (some p.length, { p with index := p.length }))
    ∧ (∀ pos : Nat, pos ≤ p.length →
      p.seek (.Start pos) = some (some pos, { p with index := pos }))
    ∧ (∀ offset : Int, 0 ≤ offset → p.index + offset.toNat > p.length →
      p.seek (.Current offset) = some (some p.length, { p with index := p.length }))
    ∧ (∀ offset : Int, 0 ≤ offset → p.index + offset.toNat ≤ p.length →
      p.seek (.Current offset)
        = some (some (p.index + offset.toNat), { p with index := p.index + offset.toNat }))
    ∧ (∀ offset : Int, p.seek (.End offset) = none) := by
  refine ⟨?_, ?_, ?_, ?_, ?_, fun _ => rfl⟩
  · intro off h1 h2
    simp only [MemProducer.seek, if_neg (by omega : ¬ (0 : Int) ≤ off),
      if_neg (by omega : ¬ off.natAbs ≤ p.index)]
  · intro pos h
    simp only [MemProducer.seek, if_pos h]
  · intro pos h
    simp only [MemProducer.seek, if_neg (by omega : ¬ pos > p.length)]
  · intro off h1 h2
    simp only [MemProducer.seek, if_pos h1, if_pos h2]
  · intro off h1 h2
    simp only [MemProducer.seek, if_pos h1, if_neg (by omega : ¬ p.index + off.toNat > p.length)]

/-- Witness for memProducer_seek_behavior at a concrete producer. -/
theorem memProducer_seek_behavior_w :
    MemProducer.seek (MemProducer.new [1, 2, 3] 2) (SeekFrom.Current (-1))
      = some (none, MemProducer.new [1, 2, 3] 2)
    ∧ MemProducer.seek (MemProducer.new [1, 2, 3] 2) (SeekFrom.Start 5)
      = some (some 3, { buffer := [1, 2, 3], chunk_size := 2, length := 3, index := 3 })
    ∧ MemProducer.seek (MemProducer.new [1, 2, 3] 2) (SeekFrom.Start 2)
      = some (some 2, { buffer := [1, 2, 3], chunk_size := 2, length := 3, index := 2 })
    ∧ MemProducer.seek (MemProducer.new [1, 2, 3] 2) (SeekFrom.Current 9)
      = some (some 3, { buffer := [1, 2, 3], chunk_size := 2, length := 3, index := 3 })
    ∧ MemProducer.seek (MemProducer.new [1, 2, 3] 2) (SeekFrom.Current 1)
      = some (some 1, { buffer := [1, 2, 3], chunk_size := 2, length := 3, index := 1 })
    ∧ MemProducer.seek (MemProducer.new [1, 2, 3] 2) (SeekFrom.End 2) = none :=
  ⟨(memProducer_seek_behavior _).1 (-1) (by decide) (by decide),
   (memProducer_seek_behavior _).2.1 5 (by decide),
   (memProducer_seek_behavior _).2.2.1 2 (by decide),
   (memProducer_seek_behavior _).2.2.2.1 9 (by decide) (by decide),
   (memProducer_seek_behavior _).2.2.2.2.1 1 (by decide) (by decide),
   (memProducer_seek_behavior _).2.2.2.2.2 2⟩

/-- If the delimiter never matches and it is at least two bytes long, the
take_until scan stalls at the first position with fewer than len(D) bytes
left and reports Incomplete there. -/
theorem take_untilLoop_no_match (bytes i : List Nat) (h2 : 2 ≤ bytes.length)
    (hnil : 1 ≤ i.length)
    (hno : ∀ j < i.length, (i.drop j).take bytes.length ≠ bytes) :
    ∀ k idx, i.length - idx ≤ k → (∀ j < idx, j + bytes.length ≤ i.length) →
      take_untilLoop bytes i idx
        = IResult.Incomplete (Needed.Size (max bytes.length (i.length + 1))) := by
  intro k
  induction k with
  | zero =>
    intro idx hk hj
    exfalso
    have := hj (i.length - 1) (by omega)
    omega
  | succ k ih =>
    intro idx hk hj
    by_cases hlt : idx < i.length
    · rw [take_untilLoop, dif_pos hlt]
      by_cases hst : idx + bytes.length > i.length
      · rw [if_pos hst]
        have heq : idx + bytes.length = max bytes.length (i.length + 1) := by
          rcases Nat.eq_zero_or_pos idx with h0 | h0
          · omega
          · have := hj (idx - 1) (by omega)
            omega
        rw [heq]
      · rw [if_neg hst, if_neg (hno idx hlt)]
        exact ih (idx + 1) (by omega) (by
          intro j hjlt
          rcases Nat.lt_or_ge j idx with hc | hc
          · exact hj j hc
          · omega)
    · exfalso
      have := hj (i.length - 1) (by omega)
      omega

/-- The same stall behaviour for the take_until_and_leave scan. -/
theorem take_until_and_leaveLoop_no_match (bytes i : List Nat) (h2 : 2 ≤ bytes.length)
    (hnil : 1 ≤ i.length)
    (hno : ∀ j < i.length, (i.drop j).take bytes.length ≠ bytes) :
    ∀ k idx, i.length - idx ≤ k → (∀ j < idx, j + bytes.length ≤ i.length) →
      take_until_and_leaveLoop bytes i idx
        = IResult.Incomplete (Needed.Size (max bytes.length (i.length + 1))) := by
  intro k
  induction k with
  | zero =>
    intro idx hk hj
    exfalso
    have := hj (i.length - 1) (by omega)
    omega
  | succ k ih =>
    intro idx hk hj
    by_cases hlt : idx < i.length
    · rw [take_until_and_leaveLoop, dif_pos hlt]
      by_cases hst : idx + bytes.length > i.length
      · rw [if_pos hst]
        have heq : idx + bytes.length = max bytes.length (i.length + 1) := by
          rcases Nat.eq_zero_or_pos idx with h0 | h0
          · omega
          · have := hj (idx - 1) (by omega)
            omega
        rw [heq]
      · rw [if_neg hst, if_neg (hno idx hlt)]
        exact ih (idx + 1) (by omega) (by
          intro j hjlt
          rcases Nat.lt_or_ge j idx with hc | hc
          · exact hj j hc
          · omega)
    · exfalso
      have := hj (i.length - 1) (by omega)
      omega

/-- A one-byte delimiter that never matches drives the take_until scan to
the end of the input, where it fails with Error(0). -/
theorem take_untilLoop_single (bytes i : List Nat) (h1 : bytes.length = 1)
    (hno : ∀ j < i.length, (i.drop j).take bytes.length ≠ bytes) :
    ∀ k idx, i.length - idx ≤ k → take_untilLoop bytes i idx = IResult.Error 0 := by
  intro k
  induction k with
  | zero =>
    intro idx hk
    rw [take_untilLoop, dif_neg (by omega)]
  | succ k ih =>
    intro idx hk
    by_cases hlt : idx < i.length
    · rw [take_untilLoop, dif_pos hlt, if_neg (by omega), if_neg (hno idx hlt)]
      exact ih (idx + 1) (by omega)
    · rw [take_untilLoop, dif_neg hlt]

/-- The same end-of-scan Error(0) for the take_until_and_leave scan. -/
theorem take_until_and_leaveLoop_single (bytes i : List Nat) (h1 : bytes.length = 1)
    (hno : ∀ j < i.length, (i.drop j).take bytes.length ≠ bytes) :
    ∀ k idx, i.length - idx ≤ k → take_until_and_leaveLoop bytes i idx = IResult.Error 0 := by
  intro k
  induction k with
  | zero =>
    intro idx hk
    rw [take_until_and_leaveLoop, dif_neg (by omega)]
  | succ k ih =>
    intro idx hk
    by_cases hlt : idx < i.length
    · rw [take_until_and_leaveLoop, dif_pos hlt, if_neg (by omega), if_neg (hno idx hlt)]
      exact ih (idx + 1) (by omega)
    · rw [take_until_and_leaveLoop, dif_neg hlt]

/-- When no byte of the input is in the delimiter set, the
take_until_either scan always ends with Error(0): its Incomplete branch is
unreachable. -/
theorem take_until_eitherLoop_not_found (bytes i : List Nat)
    (hb : ∀ b ∈ i, b ∉ bytes) :
    ∀ k idx, i.length - idx ≤ k → take_until_eitherLoop bytes i idx = IResult.Error 0 := by
  intro k
  induction k with
  | zero =>
    intro idx hk
    rw [take_until_eitherLoop, dif_neg (by omega)]
  | succ k ih =>
    intro idx hk
    by_cases hlt : idx < i.length
    · rw [take_until_eitherLoop, dif_pos hlt, if_neg (by omega),
        if_neg (hb (i.get ⟨idx, hlt⟩) (i.get_mem idx hlt))]
      exact ih (idx + 1) (by omega)
    · rw [take_until_eitherLoop, dif_neg hlt]

/-- The same unconditional Error(0) for the take_until_either_and_leave scan. -/
theorem take_until_either_and_leaveLoop_not_found (bytes i : List Nat)
    (hb : ∀ b ∈ i, b ∉ bytes) :
    ∀ k idx, i.length - idx ≤ k →
      take_until_either_and_leaveLoop bytes i idx = IResult.Error 0 := by
  intro k
  induction k with
  | zero =>
    intro idx hk
    rw [take_until_either_and_leaveLoop, dif_neg (by omega)]
  | succ k ih =>
    intro idx hk
    by_cases hlt : idx < i.length
    · rw [take_until_either_and_leaveLoop, dif_pos hlt, if_neg (by omega),
        if_neg (hb (i.get ⟨idx, hlt⟩) (i.get_mem idx hlt))]
      exact ih (idx + 1) (by omega)
    · rw [take_until_either_and_leaveLoop, dif_neg hlt]

/-- Claim C2 counterexample: the take_until_either scan over an input not
containing the delimiter byte, and the take_until scan over the empty
input, both return Error(0) — not Incomplete as the claim states. -/
theorem take_until_missing_delimiter_cex :
    take_until_either [101] [97] = IResult.Error 0
    ∧ (take_until_either [101] [97]).isIncomplete = false
    ∧ take_until [101, 102] [] = IResult.Error 0
    ∧ (take_until [101, 102] []).isIncomplete = false := by
  refine ⟨?_, ?_, ?_, ?_⟩ <;>
    simp [take_until_either, take_until_eitherLoop, take_until, take_untilLoop,
      IResult.isIncomplete]

/-- Claim C2 as amended: when the delimiter does not occur in the input,
take_until and take_until_and_leave return Incomplete only for delimiters
of at least two bytes on non-empty inputs (with the stall estimate
max(len(D), len(I) + 1)); on the empty input, and for one-byte delimiters
scanned to the end, they return Error(0), and take_until_either and
take_until_either_and_leave return Error(0) in every no-match case. -/
theorem take_until_missing_delimiter (bytes i : List Nat) :
    (2 ≤ bytes.length → i ≠ [] →
      (∀ j < i.length, (i.drop j).take bytes.length ≠ bytes) →
      take_until bytes i
        = IResult.Incomplete (Needed.Size (max bytes.length (i.length + 1)))
      ∧ take_until_and_leave bytes i
        = IResult.Incomplete (Needed.Size (max bytes.length (i.length + 1))))
    ∧ (bytes.length = 1 →
      (∀ j < i.length, (i.drop j).take bytes.length ≠ bytes) →
      take_until bytes i = IResult.Error 0
      ∧ take_until_and_leave bytes i = IResult.Error 0)
    ∧ ((∀ b ∈ i, b ∉ bytes) →
      take_until_either bytes i = IResult.Error 0
      ∧ take_until_either_and_leave bytes i = IResult.Error 0)
    ∧ (i = [] →
      take_until bytes i = IResult.Error 0
      ∧ take_until_and_leave bytes i = IResult.Error 0
      ∧ take_until_either bytes i = IResult.Error 0
      ∧ take_until_either_and_leave bytes i = IResult.Error 0) := by
  refine ⟨?_, ?_, ?_, ?_⟩
  · intro h2 hnil hno
    have hlen : 1 ≤ i.length := List.length_pos.mpr hnil
    constructor
    · exact take_untilLoop_no_match bytes i h2 hlen hno i.length 0 (by omega)
        (by intro j hj; omega)
    · exact take_until_and_leaveLoop_no_match bytes i h2 hlen hno i.length 0 (by omega)
        (by intro j hj; omega)
  · intro h1 hno
    exact ⟨take_untilLoop_single bytes i h1 hno i.length 0 (by omega),
      take_until_and_leaveLoop_single bytes i h1 hno i.length 0 (by omega)⟩
  · intro hb
    exact ⟨take_until_eitherLoop_not_found bytes i hb i.length 0 (by omega),
      take_until_either_and_leaveLoop_not_found bytes i hb i.length 0 (by omega)⟩
  · intro he
    subst he
    refine ⟨?_, ?_, ?_, ?_⟩ <;>
      simp [take_until, take_untilLoop, take_until_and_leave, take_until_and_leaveLoop,
        take_until_either, take_until_eitherLoop, take_until_either_and_leave,
        take_until_either_and_leaveLoop]

/-- Witness for take_until_missing_delimiter at concrete scans. -/
theorem take_until_missing_delimiter_w :
    take_until [101, 102] [97] = IResult.Incomplete (Needed.Size 2)
    ∧ take_until_and_leave [101, 102] [97] = IResult.Incomplete (Needed.Size 2)
    ∧ take_until [101] [97] = IResult.Error 0
    ∧ take_until_and_leave [101] [97] = IResult.Error 0
    ∧ take_until_either [101] [97] = IResult.Error 0
    ∧ take_until_either_and_leave [101] [97] = IResult.Error 0
    ∧ take_until [101, 102] [] = IResult.Error 0 :=
  ⟨((take_until_missing_delimiter [101, 102] [97]).1 (by decide) (by decide)
      (by decide)).1,
   ((take_until_missing_delimiter [101, 102] [97]).1 (by decide) (by decide)
      (by decide)).2,
   ((take_until_missing_delimiter [101] [97]).2.1 (by decide) (by decide)).1,
   ((take_until_missing_delimiter [101] [97]).2.1 (by decide) (by decide)).2,
   ((take_until_missing_delimiter [101] [97]).2.2.1 (by decide)).1,
   ((take_until_missing_delimiter [101] [97]).2.2.1 (by decide)).2,
   ((take_until_missing_delimiter [101, 102] []).2.2.2 rfl).1⟩

/-- If every Done of the sub-parser strictly consumes, one fuel unit more
than the unconsumed byte count (the decreasing measure) runs the many0
loop to completion. -/
theorem many0Loop_total {α : Type} (f : Parser α)
    (hf : ∀ i j o, f i = IResult.Done j o → j.length < i.length) (input : List Nat) :
    ∀ fuel b res, input.length - b < fuel →
      (many0Loop f input b (input.length - b) res fuel).isSome = true := by
  intro fuel
  induction fuel with
  | zero =>
    intro b res h
    omega
  | succ fuel ih =>
    intro b res h
    cases hfb : f (input.drop b) with
    | Done i o =>
      have hlen : i.length < (input.drop b).length := hf _ _ _ hfb
      rw [List.length_drop] at hlen
      simp only [many0Loop, hfb]
      by_cases hge : b + ((input.length - b) - i.length) ≥ input.length
      · rw [if_pos hge]
        rfl
      · rw [if_neg hge]
        set b2 := b + ((input.length - b) - i.length) with hb2
        have he : i.length = input.length - b2 := by omega
        rw [he]
        exact ih b2 (res ++ [o]) (by omega)
    | Error c =>
      simp only [many0Loop, hfb]
      rfl
    | Incomplete n =>
      simp only [many0Loop, hfb]
      rfl

/-- The same measure runs the many1 loop to completion. -/
theorem many1Loop_total {α : Type} (f : Parser α)
    (hf : ∀ i j o, f i = IResult.Done j o → j.length < i.length) (input : List Nat) :
    ∀ fuel b res, input.length - b < fuel →
      (many1Loop f input b (input.length - b) res fuel).isSome = true := by
  intro fuel
  induction fuel with
  | zero =>
    intro b res h
    omega
  | succ fuel ih =>
    intro b res h
    cases hfb : f (input.drop b) with
    | Done i o =>
      have hlen : i.length < (input.drop b).length := hf _ _ _ hfb
      rw [List.length_drop] at hlen
      simp only [many1Loop, hfb]
      by_cases hge : b + ((input.length - b) - i.length) ≥ input.length
      · rw [if_pos hge]
        rfl
      · rw [if_neg hge]
        set b2 := b + ((input.length - b) - i.length) with hb2
        have he : i.length = input.length - b2 := by omega
        rw [he]
        exact ih b2 (res ++ [o]) (by omega)
    | Error c =>
      simp only [many1Loop, hfb]
      split <;> rfl
    | Incomplete n =>
      simp only [many1Loop, hfb]
      split <;> rfl

/-- The same measure runs the fold0 loop to completion. -/
theorem fold0Loop_total {α β : Type} (assemble : β → α → β) (f : Parser α)
    (hf : ∀ i j o, f i = IResult.Done j o → j.length < i.length) (input : List Nat) :
    ∀ fuel b res, input.length - b < fuel →
      (fold0Loop assemble f input b (input.length - b) res fuel).isSome = true := by
  intro fuel
  induction fuel with
  | zero =>
    intro b res h
    omega
  | succ fuel ih =>
    intro b res h
    cases hfb : f (input.drop b) with
    | Done i o =>
      have hlen : i.length < (input.drop b).length := hf _ _ _ hfb
      rw [List.length_drop] at hlen
      simp only [fold0Loop, hfb]
      by_cases hge : b + ((input.length - b) - i.length) ≥ input.length
      · rw [if_pos hge]
        rfl
      · rw [if_neg hge]
        set b2 := b + ((input.length - b) - i.length) with hb2
        have he : i.length = input.length - b2 := by omega
        rw [he]
        exact ih b2 (assemble res o) (by omega)
    | Error c =>
      simp only [fold0Loop, hfb]
      rfl
    | Incomplete n =>
      simp only [fold0Loop, hfb]
      rfl

/-- The same measure runs the fold1 loop to completion. -/
theorem fold1Loop_total {α β : Type} (assemble : β → α → β) (f : Parser α)
    (hf : ∀ i j o, f i = IResult.Done j o → j.length < i.length) (input : List Nat) :
    ∀ fuel b res, input.length - b < fuel →
      (fold1Loop assemble f input b (input.length - b) res fuel).isSome = true := by
  intro fuel
  induction fuel with
  | zero =>
    intro b res h
    omega
  | succ fuel ih =>
    intro b res h
    cases hfb : f (input.drop b) with
    | Done i o =>
      have hlen : i.length < (input.drop b).length := hf _ _ _ hfb
      rw [List.length_drop] at hlen
      simp only [fold1Loop, hfb]
      by_cases hge : b + ((input.length - b) - i.length) ≥ input.length
      · rw [if_pos hge]
        rfl
      · rw [if_neg hge]
        set b2 := b + ((input.length - b) - i.length) with hb2
        have he : i.length = input.length - b2 := by omega
        rw [he]
        exact ih b2 (assemble res o) (by omega)
    | Error c =>
      simp only [fold1Loop, hfb]
      split <;> rfl
    | Incomplete n =>
      simp only [fold1Loop, hfb]
      split <;> rfl

/-- A zero-consuming Done keeps the many0 loop at the same position
forever: no amount of fuel finishes it. -/
theorem many0Loop_zero_consuming :
    ∀ fuel res, many0Loop zeroConsume [1] 0 1 res fuel = none := by
  intro fuel
  induction fuel with
  | zero =>
    intro res
    rfl
  | succ fuel ih =>
    intro res
    simp only [many0Loop, zeroConsume]
    norm_num
    exact ih _

/-- The same divergence for the many1 loop. -/
theorem many1Loop_zero_consuming :
    ∀ fuel res, many1Loop zeroConsume [1] 0 1 res fuel = none := by
  intro fuel
  induction fuel with
  | zero =>
    intro res
    rfl
  | succ fuel ih =>
    intro res
    simp only [many1Loop, zeroConsume]
    norm_num
    exact ih _

/-- The same divergence for the fold0 loop. -/
theorem fold0Loop_zero_consuming :
    ∀ fuel res, fold0Loop keepAcc zeroConsume [1] 0 1 res fuel = none := by
  intro fuel
  induction fuel with
  | zero =>
    intro res
    rfl
  | succ fuel ih =>
    intro res
    simp only [fold0Loop, zeroConsume, keepAcc]
    norm_num
    exact ih _

/-- The same divergence for the fold1 loop. -/
theorem fold1Loop_zero_consuming :
    ∀ fuel res, fold1Loop keepAcc zeroConsume [1] 0 1 res fuel = none := by
  intro fuel
  induction fuel with
  | zero =>
    intro res
    rfl
  | succ fuel ih =>
    intro res
    simp only [fold1Loop, zeroConsume, keepAcc]
    norm_num
    exact ih _

/-- Claim C8: a sub-parser whose every Done consumes at least one byte
makes many0, many1, fold0 and fold1 terminate on every finite input — fuel
one more than the input length (the unconsumed-byte measure at entry)
suffices — and the precondition is necessary: a sub-parser returning Done
while consuming nothing on the non-empty input [1] leaves every loop
unfinished no matter how much fuel it gets. -/
theorem repetition_terminates :
    (∀ (α β : Type) (f : Parser α) (assemble : β → α → β) (z : β),
      (∀ i j o, f i = IResult.Done j o → j.length < i.length) →
      ∀ input : List Nat,
        (many0 f input (input.length + 1)).isSome = true
        ∧ (many1 f input (input.length + 1)).isSome = true
        ∧ (fold0 assemble f input z (input.length + 1)).isSome = true
        ∧ (fold1 assemble f input z (input.length + 1)).isSome = true)
    ∧ (∀ fuel : Nat,
        many0 zeroConsume [1] fuel = none
        ∧ many1 zeroConsume [1] fuel = none
        ∧ fold0 keepAcc zeroConsume [1] 0 fuel = none
        ∧ fold1 keepAcc zeroConsume [1] 0 fuel = none) := by
  constructor
  · intro α β f assemble z hf input
    exact ⟨many0Loop_total f hf input (input.length + 1) 0 [] (by omega),
      many1Loop_total f hf input (input.length + 1) 0 [] (by omega),
      fold0Loop_total assemble f hf input (input.length + 1) 0 z (by omega),
      fold1Loop_total assemble f hf input (input.length + 1) 0 z (by omega)⟩
  · intro fuel
    exact ⟨many0Loop_zero_consuming fuel [], many1Loop_zero_consuming fuel [],
      fold0Loop_zero_consuming fuel 0, fold1Loop_zero_consuming fuel 0⟩

/-- Witness for repetition_terminates with a one-byte-consuming sub-parser. -/
theorem repetition_terminates_w :
    (many0 oneByte [5, 6] 3).isSome = true
    ∧ (many1 oneByte [5, 6] 3).isSome = true
    ∧ (fold0 keepAcc oneByte [5, 6] 0 3).isSome = true
    ∧ (fold1 keepAcc oneByte [5, 6] 0 3).isSome = true :=
  repetition_terminates.1 Nat Nat oneByte keepAcc 0
    (by
      intro i j o h
      cases i with
      | nil => simp [oneByte] at h
      | cons a t =>
        simp only [oneByte] at h
        injection h with h1 h2
        subst h1
        simp)
    [5, 6]

/-- Claim C10: when a sub-parser success empties the remaining input, the
many0 and many1 loops return Done right away with the elements gathered so
far (the step just taken included), whatever the sub-parser would do on
the empty remainder and whatever fuel is left. -/
theorem repetition_stops_at_end {α : Type} (f : Parser α) (input : List Nat)
    (b : Nat) (res : List α) (o : α) (fuel : Nat)
    (hb : b ≤ input.length) (h : f (input.drop b) = IResult.Done [] o) :
    many0Loop f input b (input.length - b) res (fuel + 1)
      = some (IResult.Done [] (res ++ [o]))
    ∧ many1Loop f input b (input.length - b) res (fuel + 1)
      = some (IResult.Done [] (res ++ [o])) := by
  constructor
  · simp only [many0Loop, h, List.length_nil, Nat.sub_zero]
    rw [if_pos (by omega)]
  · simp only [many1Loop, h, List.length_nil, Nat.sub_zero]
    rw [if_pos (by omega)]

/-- Witness for repetition_stops_at_end at a concrete loop state. -/
theorem repetition_stops_at_end_w :
    many0Loop consumeAll [5] 0 1 [] 1 = some (IResult.Done [] [7])
    ∧ many1Loop consumeAll [5] 0 1 [] 1 = some (IResult.Done [] [7]) :=
  repetition_stops_at_end consumeAll [5] 0 [] 7 0 (by decide) rfl

/-- Claim C9: the MemProducer invariant 0 <= index <= length (with length
the buffer length) holds after construction and is preserved by produce
and by absolute and relative-to-current seeks; every slice yielded in a
Data or Eof result is an in-bounds sub-slice of the backing buffer; and
once index = length every produce call returns ProducerError and leaves
the state unchanged. -/
theorem memProducer_invariant :
    (∀ (buffer : List Nat) (chunk_size : Nat), (MemProducer.new buffer chunk_size).Inv)
    ∧ (∀ p : MemProducer, p.Inv → (p.produce).2.Inv)
    ∧ (∀ (p : MemProducer) (pos : Nat) (r : Option Nat) (q : MemProducer),
        p.Inv → p.seek (.Start pos) = some (r, q) → q.Inv)
    ∧ (∀ (p : MemProducer) (offset : Int) (r : Option Nat) (q : MemProducer),
        p.Inv → p.seek (.Current offset) = some (r, q) → q.Inv)
    ∧ (∀ p : MemProducer, p.Inv → ∀ v : List Nat,
        ((p.produce).1 = .Data v ∨ (p.produce).1 = .Eof v) →
        ∃ a n, a + n ≤ p.buffer.length ∧ v = (p.buffer.drop a).take n)
    ∧ (∀ p : MemProducer, p.Inv → p.index = p.length →
        p.produce = (.ProducerError 0, p)) := by
  refine ⟨?_, ?_, ?_, ?_, ?_, ?_⟩
  · intro buffer chunk_size
    exact ⟨Nat.zero_le _, rfl⟩
  · intro p hp
    obtain ⟨hpi, hpl⟩ := hp
    by_cases h1 : p.index + p.chunk_size < p.length
    · simp only [MemProducer.produce, if_pos h1]
      exact ⟨Nat.le_of_lt h1, hpl⟩
    · by_cases h2 : p.index < p.length
      · simp only [MemProducer.produce, if_neg h1, if_pos h2]
        exact ⟨le_refl _, hpl⟩
      · simp only [MemProducer.produce, if_neg h1, if_neg h2]
        exact ⟨hpi, hpl⟩
  · intro p pos r q hp hq
    obtain ⟨hpi, hpl⟩ := hp
    simp only [MemProducer.seek] at hq
    split at hq
    · simp only [Option.some.injEq, Prod.mk.injEq] at hq
      obtain ⟨hr, hq2⟩ := hq
      subst hq2
      exact ⟨le_refl _, hpl⟩
    · rename_i hcond
      simp only [Option.some.injEq, Prod.mk.injEq] at hq
      obtain ⟨hr, hq2⟩ := hq
      subst hq2
      exact ⟨Nat.le_of_not_lt hcond, hpl⟩
  · intro p offset r q hp hq
    obtain ⟨hpi, hpl⟩ := hp
    simp only [MemProducer.seek] at hq
    split at hq
    · simp only [Option.some.injEq, Prod.mk.injEq] at hq
      obtain ⟨hr, hq2⟩ := hq
      subst hq2
      exact ⟨hpi, hpl⟩
    · split at hq
      · simp only [Option.some.injEq, Prod.mk.injEq] at hq
        obtain ⟨hr, hq2⟩ := hq
        subst hq2
        exact ⟨le_refl _, hpl⟩
      · rename_i hu
        simp only [Option.some.injEq, Prod.mk.injEq] at hq
        obtain ⟨hr, hq2⟩ := hq
        subst hq2
        exact ⟨Nat.le_of_not_lt hu, hpl⟩
  · intro p hp v hv
    obtain ⟨hpi, hpl⟩ := hp
    by_cases h1 : p.index + p.chunk_size < p.length
    · simp only [MemProducer.produce, if_pos h1] at hv
      rcases hv with hv | hv
      · cases hv
        exact ⟨p.index, p.chunk_size, by omega, rfl⟩
      · cases hv
    · by_cases h2 : p.index < p.length
      · simp only [MemProducer.produce, if_neg h1, if_pos h2] at hv
        rcases hv with hv | hv
        · cases hv
        · cases hv
          exact ⟨p.index, p.length - p.index, by omega, rfl⟩
      · simp only [MemProducer.produce, if_neg h1, if_neg h2] at hv
        rcases hv with hv | hv <;> cases hv
  · intro p hp hidx
    obtain ⟨hpi, hpl⟩ := hp
    simp only [MemProducer.produce, if_neg (by omega : ¬ p.index + p.chunk_size < p.length),
      if_neg (by omega : ¬ p.index < p.length)]

/-- Witness for memProducer_invariant at a concrete producer. -/
theorem memProducer_invariant_w :
    (MemProducer.new [1, 2, 3] 2).Inv
    ∧ ((MemProducer.new [1, 2, 3] 2).produce).2.Inv
    ∧ (⟨[1, 2, 3], 2, 3, 3⟩ : MemProducer).Inv
    ∧ (∃ a n, a + n ≤ ([1, 2, 3] : List Nat).length
        ∧ ([1, 2] : List Nat) = (([1, 2, 3] : List Nat).drop a).take n)
    ∧ (⟨[1, 2, 3], 2, 3, 3⟩ : MemProducer).produce
      = (.ProducerError 0, (⟨[1, 2, 3], 2, 3, 3⟩ : MemProducer)) :=
  ⟨memProducer_invariant.1 [1, 2, 3] 2,
   memProducer_invariant.2.1 (MemProducer.new [1, 2, 3] 2) ⟨by decide, rfl⟩,
   memProducer_invariant.2.2.1 (MemProducer.new [1, 2, 3] 2) 5 (some 3)
     (⟨[1, 2, 3], 2, 3, 3⟩ : MemProducer) ⟨by decide, rfl⟩ (by decide),
   memProducer_invariant.2.2.2.2.1 (MemProducer.new [1, 2, 3] 2) ⟨by decide, rfl⟩
     [1, 2] (Or.inl (by decide)),
   memProducer_invariant.2.2.2.2.2 (⟨[1, 2, 3], 2, 3, 3⟩ : MemProducer)
     ⟨by decide, rfl⟩ rfl⟩
